import Mathlib

/-!
Shallow embedding of the scheduling and rate-limiting core of the
`hiphype26/ins` job-fetcher service, together with proofs of the
testable properties its specification states about it.

Sources embedded here:
* `src/services/scheduler.ts` — the primary processing loop
  (`processNextJob`), the hourly rate limiter (`checkRateLimit`,
  `incrementRateLimit`), the gating checks (`isMaintenanceMode`,
  `isUpworkStopped`, `isWithinWorkingHours`) and the randomized
  interval policy (`getRandomInterval`);
* `src/services/leadhackScheduler.ts` — delayed-dispatch scheduling
  (`scheduleLeadhackSend`) and the forwarder's batch selection
  (`processLeadhackQueue`);
* `src/services/volnaScheduler.ts` — the ingestion poller's
  cross-source merge (`runFetchCycle`) and enqueue (`addJobToQueue`);
* `src/routes/jobs.ts` — manual job submission (`POST /api/jobs`);
* `src/index.ts` — the crash-recovery routine (`recoverStuckJobs`).

Modelling conventions: wall-clock instants are naturals (milliseconds
since the epoch); the ISO hour key `"YYYY-MM-DDTHH"` produced by
`getCurrentHourKey` is in bijection with the integer `t / 3600000`, so
rate-limit buckets are keyed by that quotient.  `Math.random()` draws
are explicit rational arguments in `[0, 1)`.  Fallible durable-store
reads are `Except`-valued arguments; a JavaScript `catch` branch
becomes a `match` on `.error`.
-/

namespace Ins

/-! ### Rate limiter (`scheduler.ts`) -/

/-- Rate-limit table: rows `(hour, count)` keyed by wall-clock hour. -/
abbrev RateLimits := List (Nat × Nat)

/-- Hour key of a millisecond timestamp; `getCurrentHourKey`'s ISO-hour
slice `"YYYY-MM-DDTHH"` identifies exactly the UTC hour `t / 3600000`. -/
def hourOf (t : Nat) : Nat := t / 3600000

/-- Count stored for an hour bucket, `0` when the row is absent
(matching `rateLimit?.count || 0` reads elsewhere in the app). -/
def getCount : RateLimits → Nat → Nat
  | [], _ => 0
  | p :: rest, hour => if p.1 = hour then p.2 else getCount rest hour

/-- The `upsert` with empty `update` in `checkRateLimit`: creates the
row `(hour, 0)` when absent, leaves an existing row alone. -/
def rlCreateIfAbsent : RateLimits → Nat → RateLimits
  | [], hour => [(hour, 0)]
  | p :: rest, hour =>
    if p.1 = hour then p :: rest else p :: rlCreateIfAbsent rest hour

/-- `checkRateLimit`: upserts the current hour's bucket (create with
count 0 when absent) and reports whether its count is below
`MAX_PER_HOUR`.  Returns the reservation verdict and the store after
the upsert. -/
def checkRateLimit (maxPerHour : Nat) (rl : RateLimits) (hour : Nat) :
    Bool × RateLimits :=
  let rl' := rlCreateIfAbsent rl hour
  (decide (getCount rl' hour < maxPerHour), rl')

/-- `incrementRateLimit`: upsert that increments the current hour's
bucket, creating it with count 1 when absent. -/
def incrementRateLimit : RateLimits → Nat → RateLimits
  | [], hour => [(hour, 1)]
  | p :: rest, hour =>
    if p.1 = hour then (p.1, p.2 + 1) :: rest
    else p :: incrementRateLimit rest hour

/-- `n` successive commits (`incrementRateLimit` calls) charged to one
hour bucket. -/
def commitN : Nat → RateLimits → Nat → RateLimits
  | 0, rl, _ => rl
  | n + 1, rl, hour => incrementRateLimit (commitN n rl hour) hour

/-! ### Work items -/

/-- The `status` column of the `Job` table: the code only ever writes
the strings `queued`, `processing`, `completed`, `failed`. -/
inductive JobStatus
  | queued | processing | completed | failed
  deriving DecidableEq, Repr

/-- The `leadhackStatus` column: `pending`, `sent` or `failed`
(`null` before dispatch scheduling, modelled as `Option`). -/
inductive LeadhackStatus
  | pending | sent | failed
  deriving DecidableEq, Repr

/-- Enrichment payload (`fetchJobDetails` result); only the fields the
core reads back are carried. -/
structure EnrichResult where
  title : Option String
  description : Option String
  clientName : Option String
  clientCity : Option String
  clientCountry : Option String
  deriving DecidableEq, Repr

/-- Volna fallback metadata captured at ingestion
(`runFetchCycle`'s `volnaData` object). -/
structure VolnaData where
  title : Option String
  clientCountry : Option String
  clientRating : Option String
  clientReviews : Option String
  clientTotalSpent : Option String
  clientTotalHires : Option String
  clientVerified : Option String
  budgetType : Option String
  budgetAmount : Option String
  deriving DecidableEq, Repr

/-- A row of the `Job` table. -/
structure Job where
  id : Nat
  userId : String
  jobUrl : String
  jobId : Option String
  status : JobStatus
  result : Option EnrichResult
  error : Option String
  createdAt : Nat
  processedAt : Option Nat
  volnaData : Option VolnaData
  sourceFilterId : Option String
  leadhackStatus : Option LeadhackStatus := none
  leadhackSendAt : Option Nat := none
  leadhackSentAt : Option Nat := none
  leadhackError : Option String := none
  deriving DecidableEq, Repr

/-- Prisma `job.update({ where: { id }, data })`: rewrite the rows whose
`id` matches. -/
def updateJob (jobs : List Job) (id : Nat) (f : Job → Job) : List Job :=
  jobs.map fun j => if j.id = id then f j else j

/-! ### Settings gates (`scheduler.ts`) -/

/-- `isMaintenanceMode`: reads the `maintenance_mode` setting and
compares with `'true'`; a thrown read is caught and yields `false`. -/
def isMaintenanceMode (read : Except String (Option String)) : Bool :=
  match read with
  | .ok v => decide (v = some "true")
  | .error _ => false

/-- `isUpworkStopped`: reads the `upwork_stopped` setting and compares
with `'true'`; a thrown read is caught and yields `false`. -/
def isUpworkStopped (read : Except String (Option String)) : Bool :=
  match read with
  | .ok v => decide (v = some "true")
  | .error _ => false

/-- Parsed working-hours settings (`working_hours_enabled`,
`working_hours_start`, `working_hours_end`, `working_days`), with the
`HH:MM` strings already turned into minutes since midnight. -/
structure WorkingHoursCfg where
  enabled : Bool
  startMinutes : Nat
  endMinutes : Nat
  workingDays : List Nat
  deriving DecidableEq, Repr

/-- `isWithinWorkingHours`: disabled window always passes; otherwise the
current day must be a working day and the current minute must fall in
the window, with the overnight (`start > end`) wrap-around; a thrown
settings read is caught and yields `true` ("default to allowing"). -/
def isWithinWorkingHours (read : Except String WorkingHoursCfg)
    (currentDay currentTime : Nat) : Bool :=
  match read with
  | .error _ => true
  | .ok cfg =>
    if !cfg.enabled then true
    else if !cfg.workingDays.contains currentDay then false
    else if cfg.endMinutes < cfg.startMinutes then
      decide (cfg.startMinutes ≤ currentTime) || decide (currentTime < cfg.endMinutes)
    else
      decide (cfg.startMinutes ≤ currentTime) && decide (currentTime < cfg.endMinutes)

/-! ### Randomized interval policy (`getRandomInterval`) -/

/-- `getRandomInterval` with the three `Math.random()` draws explicit:
the base interval is `⌊r1·(max−min)⌋ + min`; with the constant 15 %
chance (`r2 < 0.15`) the base is stretched by the factor `2 + r3`
(2x–3x) and floored. -/
def getRandomInterval (minI maxI : Nat) (r1 r2 r3 : ℚ) : ℤ :=
  let baseInterval : ℤ := ⌊r1 * ((maxI : ℚ) - (minI : ℚ))⌋ + minI
  if r2 < 3 / 20 then ⌊(baseInterval : ℚ) * (2 + r3)⌋
  else baseInterval

/-! ### Delayed dispatch (`leadhackScheduler.ts`) -/

/-- Default `LEADHACK_DELAY_HOURS`. -/
def LEADHACK_DELAY_HOURS : ℚ := 2

/-- `loadDelaySetting`: parsed `leadhack_delay_hours` value when the
row exists and parses to a non-negative number, otherwise the default;
a thrown read is caught and yields the default. -/
def loadDelaySetting (read : Except String (Option ℚ)) : ℚ :=
  match read with
  | .ok (some hours) => if 0 ≤ hours then hours else LEADHACK_DELAY_HOURS
  | .ok none => LEADHACK_DELAY_HOURS
  | .error _ => LEADHACK_DELAY_HOURS

/-- Milliseconds in `h` hours, truncated the way
`new Date(ms + h * 60 * 60 * 1000)` clips its argument. -/
def msOfHours (h : ℚ) : Nat := (⌊h * 3600000⌋).toNat

/-- `scheduleLeadhackSend`: stamps the item `pending` with
`leadhackSendAt = processedAt + delay`, the delay being read fresh from
settings on every call. -/
def scheduleLeadhackSend (delayRead : Except String (Option ℚ))
    (jobs : List Job) (jobId : Nat) (processedAt : Nat) : List Job :=
  let delayHours := loadDelaySetting delayRead
  let sendAt := processedAt + msOfHours delayHours
  updateJob jobs jobId fun j =>
    { j with leadhackStatus := some .pending, leadhackSendAt := some sendAt }

/-- The `findMany` predicate of `processLeadhackQueue`: status
`pending`, due time at or before now (a `null` due time never
matches a `lte` filter), and job `completed`. -/
def leadhackReady (now : Nat) (j : Job) : Bool :=
  decide (j.leadhackStatus = some LeadhackStatus.pending) &&
    (match j.leadhackSendAt with
     | some t => decide (t ≤ now)
     | none => false) &&
    decide (j.status = JobStatus.completed)

/-- Insert into a list sorted on `key` (ascending). -/
def insertByKey (key : Job → Nat) (j : Job) : List Job → List Job
  | [] => [j]
  | x :: xs => if key j ≤ key x then j :: x :: xs else x :: insertByKey key j xs

/-- Insertion sort on `key` (ascending), modelling `orderBy asc`. -/
def sortByKey (key : Job → Nat) : List Job → List Job
  | [] => []
  | x :: xs => insertByKey key x (sortByKey key xs)

/-- Batch selected by one forwarder run: ready items, ordered by due
time, truncated to the bound of 10 (`take: 10`). -/
def selectLeadhackBatch (now : Nat) (jobs : List Job) : List Job :=
  (sortByKey (fun j => j.leadhackSendAt.getD 0) (jobs.filter (leadhackReady now))).take 10

/-- Per-item outcome write of the forwarder loop: `sent` with a sent
timestamp on success, `failed` with the error message on failure.
Only dispatch fields are touched. -/
def markLeadhackResult (jobs : List Job) (id : Nat) (ok : Bool)
    (now : Nat) (err : String) : List Job :=
  updateJob jobs id fun j =>
    if ok then { j with leadhackStatus := some .sent, leadhackSentAt := some now }
    else { j with leadhackStatus := some .failed, leadhackError := some err }

/-! ### Durable job creation

The Prisma schema itself ships outside the embedded sources; the spec's
data model fixes its one relevant constraint. -/

/-- Modelled from the spec: the `Job` table's schema (`schema.prisma`)
is not among the embedded sources; the spec's data model declares the
"source locator (canonical URL, unique — the natural deduplication
key)", so `jobCreate` rejects a row whose `jobUrl` already exists, the
way a Prisma `create` throws on a unique-constraint violation. -/
def jobCreate (jobs : List Job) (j : Job) : Except String (List Job) :=
  if jobs.any fun x => x.jobUrl = j.jobUrl then
    .error "unique constraint violation on jobUrl"
  else .ok (jobs ++ [j])

/-- Alphanumeric scan behind ``jobUrl.match(/~([a-zA-Z0-9]+)/)``: first
`~` followed by at least one alphanumeric character. -/
def extractJobIdAux : List Char → Option String
  | [] => none
  | c :: rest =>
    if c = '~' then
      let run := rest.takeWhile fun ch => ch.isAlphanum
      if run.isEmpty then extractJobIdAux rest
      else some ("~" ++ String.mk run)
    else extractJobIdAux rest

/-- Job id extracted from a job URL (`` `~${jobIdMatch[1]}` `` or `null`). -/
def extractJobId (url : String) : Option String :=
  extractJobIdAux url.data

/-- Character-list version of `String.startsWith`. -/
def startsWithCh : List Char → List Char → Bool
  | _, [] => true
  | [], _ :: _ => false
  | c :: cs, d :: ds => c = d && startsWithCh cs ds

/-- Character-list version of JavaScript's `String.includes`. -/
def containsCh (needle : List Char) : List Char → Bool
  | [] => needle.isEmpty
  | c :: rest => startsWithCh (c :: rest) needle || containsCh needle rest

/-- URL validation of the submit route: the URL must contain
`upwork.com/jobs/` or `upwork.com/freelance-jobs/`. -/
def jobUrlValid (u : String) : Bool :=
  containsCh "upwork.com/jobs/".data u.data ||
    containsCh "upwork.com/freelance-jobs/".data u.data

/-! ### Ingestion poller (`volnaScheduler.ts`) -/

/-- `clientDetails` sub-object of a Volna project payload. -/
structure ClientDetails where
  country : Option String
  rating : Option String
  reviews : Option String
  totalSpent : Option String
  totalHires : Option String
  paymentMethodVerified : Option String
  deriving DecidableEq, Repr

/-- `budget` sub-object of a Volna project payload. -/
structure Budget where
  type : Option String
  amount : Option String
  deriving DecidableEq, Repr

/-- Candidate item returned by one Volna filter. -/
structure VolnaProject where
  url : Option String
  title : Option String
  clientDetails : Option ClientDetails
  budget : Option Budget
  deriving DecidableEq, Repr

/-- The `volnaData` fallback object `runFetchCycle` captures from a
candidate payload (optional chaining becomes `Option.bind`). -/
def extractVolnaData (p : VolnaProject) : VolnaData :=
  { title := p.title
    clientCountry := p.clientDetails.bind (·.country)
    clientRating := p.clientDetails.bind (·.rating)
    clientReviews := p.clientDetails.bind (·.reviews)
    clientTotalSpent := p.clientDetails.bind (·.totalSpent)
    clientTotalHires := p.clientDetails.bind (·.totalHires)
    clientVerified := p.clientDetails.bind (·.paymentMethodVerified)
    budgetType := p.budget.bind (·.type)
    budgetAmount := p.budget.bind (·.amount) }

/-- `addJobToQueue` of the poller: skip when a row with this URL exists
(`findFirst`), otherwise create a `queued` row carrying the fallback
data and the source filter id; a thrown create is caught and reported
as not added. -/
def addJobToQueue (jobs : List Job) (newId : Nat) (userId jobUrl : String)
    (volnaData : Option VolnaData) (sourceFilterId : Option String)
    (createdAt : Nat) : List Job × Bool :=
  match jobs.find? fun x => x.jobUrl = jobUrl with
  | some _ => (jobs, false)
  | none =>
    match jobCreate jobs
        { id := newId, userId := userId, jobUrl := jobUrl
          jobId := extractJobId jobUrl, status := .queued, result := none
          error := none, createdAt := createdAt, processedAt := none
          volnaData := volnaData, sourceFilterId := sourceFilterId } with
    | .ok jobs' => (jobs', true)
    | .error _ => (jobs, false)

/-- Inner loop of `runFetchCycle`'s merge for one filter: keep a
candidate only when its `url` is truthy and not yet in `seenUrls`
(first occurrence wins); the accumulator is the merged
`(project, filterId)` list paired with the seen-URL set. -/
def addFiltered (filterId : String) :
    List VolnaProject → List (VolnaProject × String) × List String →
      List (VolnaProject × String) × List String
  | [], acc => acc
  | p :: ps, acc =>
    match p.url with
    | some u =>
      if u ≠ "" then
        if u ∈ acc.2 then addFiltered filterId ps acc
        else addFiltered filterId ps (acc.1 ++ [(p, filterId)], acc.2 ++ [u])
      else addFiltered filterId ps acc
    | none => addFiltered filterId ps acc

/-- Cross-source merge of one poll cycle: filters are visited in
configuration order, deduplicating by URL as they go. -/
def collectProjects (fetch : String → List VolnaProject)
    (filterIds : List String) : List (VolnaProject × String) :=
  (filterIds.foldl (fun acc fid => addFiltered fid (fetch fid) acc) ([], [])).1

/-- Auto-add loop of `runFetchCycle`: each surviving candidate with a
truthy URL is offered to `addJobToQueue` with its fallback data and
source filter id; `nextId` stands for the store's id generator. -/
def autoAddAll (jobs : List Job) (nextId : Nat) (userId : String)
    (createdAt : Nat) (ps : List (VolnaProject × String)) : List Job × Nat :=
  ps.foldl
    (fun acc pf =>
      match pf.1.url with
      | some u =>
        if u ≠ "" then
          let r := addJobToQueue acc.1 acc.2 userId u
            (some (extractVolnaData pf.1)) (some pf.2) createdAt
          (r.1, if r.2 then acc.2 + 1 else acc.2)
        else acc
      | none => acc)
    (jobs, nextId)

/-! ### Manual submission (`routes/jobs.ts`, `POST /`) -/

/-- The submit route's write path: URL format check, Upwork-connection
check, then a bare `job.create` of a `queued` row (no
existing-URL lookup); a thrown create is caught and answered with a
500, leaving the store as it was.  The returned flag is whether the
route answered success. -/
def submitJob (jobs : List Job) (newId : Nat) (userId jobUrl : String)
    (hasToken : Bool) (createdAt : Nat) : List Job × Bool :=
  if !jobUrlValid jobUrl then (jobs, false)
  else if !hasToken then (jobs, false)
  else
    match jobCreate jobs
        { id := newId, userId := userId, jobUrl := jobUrl
          jobId := extractJobId jobUrl, status := .queued, result := none
          error := none, createdAt := createdAt, processedAt := none
          volnaData := none, sourceFilterId := none } with
    | .ok jobs' => (jobs', true)
    | .error _ => (jobs, false)

/-- One way a `Job` row can come into being: poller auto-enqueue or
manual submission. -/
inductive SubmitOp where
  | ingest (newId : Nat) (userId jobUrl : String) (vd : Option VolnaData)
      (fid : Option String) (t : Nat)
  | manual (newId : Nat) (userId jobUrl : String) (hasToken : Bool) (t : Nat)

/-- Effect of a submission event on the job store. -/
def applySubmitOp (jobs : List Job) : SubmitOp → List Job
  | .ingest newId userId jobUrl vd fid t =>
    (addJobToQueue jobs newId userId jobUrl vd fid t).1
  | .manual newId userId jobUrl hasToken t =>
    (submitJob jobs newId userId jobUrl hasToken t).1

/-- No two rows share a canonical URL. -/
def urlsDistinct (jobs : List Job) : Prop :=
  List.Pairwise (fun a b => a.jobUrl ≠ b.jobUrl) jobs

/-! ### Primary processing loop (`processNextJob`) -/

/-- What one cycle of the loop did, mirroring its early `return`s and
the two enrichment outcomes. -/
inductive CycleOutcome
  | gated
  | offHours
  | storeError
  | rateLimited
  | idle
  | completedJob (id : Nat)
  | failedJob (id : Nat)
  deriving DecidableEq, Repr

/-- Shared durable state the cycle reads and writes. -/
structure SchedState where
  jobs : List Job
  rateLimits : RateLimits
  deriving DecidableEq, Repr

/-- Inputs one cycle draws from the outside world: the three settings
reads, the clock, the quota, whether the rate-limit store answers, and
the enrichment collaborator's verdict per URL. -/
structure CycleEnv where
  maintenanceRead : Except String (Option String)
  stoppedRead : Except String (Option String)
  workingHoursRead : Except String WorkingHoursCfg
  currentDay : Nat
  currentTime : Nat
  maxPerHour : Nat
  now : Nat
  rateStoreUp : Bool
  enrich : String → Except String EnrichResult

/-- `findFirst({ where: { status: 'queued' }, orderBy: { createdAt:
'desc' } })`: the queued row with the greatest `createdAt`. -/
def newestQueued : List Job → Option Job
  | [] => none
  | j :: rest =>
    match newestQueued rest with
    | none => if j.status = .queued then some j else none
    | some b =>
      if j.status = .queued ∧ b.createdAt < j.createdAt then some j else some b

/-- The rate-limit upsert as the cycle sees it: the durable store being
unreachable surfaces as a thrown call, caught by the cycle's outer
`catch`. -/
def rateLimitUpsert (up : Bool) (maxPerHour : Nat) (rl : RateLimits)
    (hour : Nat) : Except String (Bool × RateLimits) :=
  if up then .ok (checkRateLimit maxPerHour rl hour)
  else .error "rate-limit store unreachable"

/-- One cycle of `processNextJob`.  Gate order, the rate-limit check,
LIFO selection, the `processing` write, the enrichment call and the
success/failure writes follow the source; the third component records
the fire-and-forget `sendToLeadHack(job.jobUrl, ...)` calls the cycle
issues, stamped with the cycle's clock. -/
def processNextJob (env : CycleEnv) (s : SchedState) :
    SchedState × CycleOutcome × List (String × Nat) :=
  if isMaintenanceMode env.maintenanceRead || isUpworkStopped env.stoppedRead then
    (s, .gated, [])
  else if !isWithinWorkingHours env.workingHoursRead env.currentDay env.currentTime then
    (s, .offHours, [])
  else
    match rateLimitUpsert env.rateStoreUp env.maxPerHour s.rateLimits (hourOf env.now) with
    | .error _ => (s, .storeError, [])
    | .ok (canProcess, rl') =>
      if !canProcess then ({ s with rateLimits := rl' }, .rateLimited, [])
      else
        match newestQueued s.jobs with
        | none => ({ s with rateLimits := rl' }, .idle, [])
        | some job =>
          let jobs1 := updateJob s.jobs job.id fun j => { j with status := .processing }
          match env.enrich job.jobUrl with
          | .ok result =>
            let jobs2 := updateJob jobs1 job.id fun j =>
              { j with status := .completed, result := some result
                       processedAt := some env.now }
            let rl'' := incrementRateLimit rl' (hourOf env.now)
            ({ jobs := jobs2, rateLimits := rl'' }, .completedJob job.id,
              [(job.jobUrl, env.now)])
          | .error msg =>
            let jobs2 := updateJob jobs1 job.id fun j =>
              { j with status := .failed, error := some msg
                       processedAt := some env.now }
            ({ jobs := jobs2, rateLimits := rl' }, .failedJob job.id, [])

/-- The forward status order of the lifecycle: reflexivity plus
`queued → processing → (completed | failed)` and its composites. -/
def forwardOk : JobStatus → JobStatus → Bool
  | a, b =>
    decide (a = b) ||
      (decide (a = .queued) &&
        (decide (b = .processing) || decide (b = .completed) || decide (b = .failed))) ||
      (decide (a = .processing) && (decide (b = .completed) || decide (b = .failed)))

/-! ### Crash recovery (`index.ts`) -/

/-- `recoverStuckJobs`: `updateMany({ where: { status: 'processing' },
data: { status: 'queued' } })` run once at startup. -/
def recoverStuckJobs (jobs : List Job) : List Job :=
  jobs.map fun j => if j.status = .processing then { j with status := .queued } else j

/-! ### Concrete fixtures used by witnesses and counterexamples -/

/-- A queued work item as the poller would create it. -/
def wJob : Job :=
  { id := 1, userId := "u1", jobUrl := "https://www.upwork.com/jobs/~abc"
    jobId := some "~abc", status := .queued, result := none, error := none
    createdAt := 100, processedAt := none, volnaData := none
    sourceFilterId := some "11" }

/-- A concrete enrichment payload. -/
def wEnrich : EnrichResult :=
  { title := some "t", description := some "d", clientName := some "c"
    clientCity := none, clientCountry := some "US" }

/-- Cycle inputs with all gates open, the store up and enrichment
succeeding; the clock reads 5000 ms. -/
def wEnvOk : CycleEnv :=
  { maintenanceRead := .ok none, stoppedRead := .ok none
    workingHoursRead := .ok { enabled := false, startMinutes := 540
                              endMinutes := 1080, workingDays := [1, 2, 3, 4, 5] }
    currentDay := 3, currentTime := 600, maxPerHour := 50, now := 5000
    rateStoreUp := true, enrich := fun _ => .ok wEnrich }

/-- Same cycle inputs with a failing enrichment call. -/
def wEnvFail : CycleEnv :=
  { wEnvOk with enrich := fun _ => .error "boom" }

/-- Same cycle inputs with the rate-limit store unreachable. -/
def wEnvDown : CycleEnv :=
  { wEnvOk with rateStoreUp := false }

/-- Cycle inputs whose three settings reads all throw. -/
def wEnvErr : CycleEnv :=
  { wEnvOk with maintenanceRead := .error "db down"
                stoppedRead := .error "db down"
                workingHoursRead := .error "db down" }

/-- One-item store. -/
def wState : SchedState := { jobs := [wJob], rateLimits := [] }

/-- The fixture item after completion (processed at 5000 ms). -/
def wJobDone : Job :=
  { wJob with
    status := .completed
    result := some wEnrich
    processedAt := some 5000 }

/-- Scenario candidates A, B, C for the two-source merge. -/
def pA : VolnaProject :=
  { url := some "A", title := some "a", clientDetails := none, budget := none }

/-- Candidate B, returned by both scenario sources. -/
def pB : VolnaProject :=
  { url := some "B", title := some "b", clientDetails := none, budget := none }

/-- Candidate C, returned only by the second scenario source. -/
def pC : VolnaProject :=
  { url := some "C", title := some "c", clientDetails := none, budget := none }

/-- Two scenario sources returning the overlapping URL sets
`{A, B}` and `{B, C}`. -/
def scenFetch : String → List VolnaProject := fun fid =>
  if fid = "1" then [pA, pB] else if fid = "2" then [pB, pC] else []

/-! ## Helper lemmas -/

theorem getCount_rlCreateIfAbsent (rl : RateLimits) (hour h' : Nat) :
    getCount (rlCreateIfAbsent rl hour) h' = getCount rl h' := by
  induction rl with
  | nil =>
    simp only [rlCreateIfAbsent, getCount]
    split <;> simp_all [getCount]
  | cons p rest ih =>
    simp only [rlCreateIfAbsent]
    split <;> simp [getCount, ih]

theorem getCount_incrementRateLimit (rl : RateLimits) (hour h' : Nat) :
    getCount (incrementRateLimit rl hour) h' =
      getCount rl h' + (if h' = hour then 1 else 0) := by
  induction rl with
  | nil =>
    simp only [incrementRateLimit, getCount]
    rcases eq_or_ne h' hour with h | h
    · simp [h]
    · simp [h, Ne.symm h]
  | cons p rest ih =>
    simp only [incrementRateLimit]
    by_cases hp : p.1 = hour
    · simp only [if_pos hp, getCount]
      by_cases hh : p.1 = h'
      · simp [hh, hp.symm.trans hh]
      · have : ¬ h' = hour := fun e => hh (hp.trans e.symm)
        simp [hh, this]
    · simp only [if_neg hp, getCount]
      by_cases hh : p.1 = h'
      · have : ¬ h' = hour := fun e => hp (hh.trans e)
        simp [hh, this]
      · simp [hh, ih]

theorem getCount_commitN (n : Nat) (rl : RateLimits) (hour h' : Nat) :
    getCount (commitN n rl hour) h' =
      getCount rl h' + (if h' = hour then n else 0) := by
  induction n with
  | zero => simp [commitN]
  | succ n ih =>
    simp only [commitN, getCount_incrementRateLimit, ih]
    split <;> omega

theorem pairwise_id_unique {l : List Job}
    (h : List.Pairwise (fun a b => a.id ≠ b.id) l) :
    ∀ x ∈ l, ∀ y ∈ l, x.id = y.id → x = y := by
  induction l with
  | nil => simp
  | cons a t ih =>
    rcases List.pairwise_cons.mp h with ⟨ha, ht⟩
    intro x hx y hy hxy
    rcases List.mem_cons.mp hx with hxa | hxt
    · rcases List.mem_cons.mp hy with hya | hyt
      · exact hxa.trans hya.symm
      · subst hxa
        exact absurd hxy (ha y hyt)
    · rcases List.mem_cons.mp hy with hya | hyt
      · subst hya
        exact absurd hxy.symm (ha x hxt)
      · exact ih ht x hxt y hyt hxy

theorem newestQueued_mem {jobs : List Job} {j : Job}
    (h : newestQueued jobs = some j) : j ∈ jobs ∧ j.status = .queued := by
  induction jobs with
  | nil => simp [newestQueued] at h
  | cons a t ih =>
    cases hn : newestQueued t with
    | none =>
      simp only [newestQueued, hn] at h
      split_ifs at h with hs
      · obtain rfl := Option.some.inj h
        exact ⟨List.mem_cons_self a t, hs⟩
    | some b =>
      simp only [newestQueued, hn] at h
      split_ifs at h with hs
      · obtain rfl := Option.some.inj h
        exact ⟨List.mem_cons_self a t, hs.1⟩
      · obtain rfl := Option.some.inj h
        have hb := ih hn
        exact ⟨List.mem_cons_of_mem a hb.1, hb.2⟩

/-- Enumeration of everything one cycle of the loop can do, used to
settle the claims about it. -/
theorem processNextJob_cases (env : CycleEnv) (s : SchedState) :
    (∃ out, processNextJob env s = (s, out, [])
      ∧ (out = .gated ∨ out = .offHours ∨ out = .storeError))
    ∨ (processNextJob env s =
        ({ s with rateLimits := rlCreateIfAbsent s.rateLimits (hourOf env.now) },
          .rateLimited, []))
    ∨ (processNextJob env s =
        ({ s with rateLimits := rlCreateIfAbsent s.rateLimits (hourOf env.now) },
          .idle, []))
    ∨ (∃ job result, newestQueued s.jobs = some job
        ∧ env.enrich job.jobUrl = .ok result
        ∧ processNextJob env s =
          ({ jobs := updateJob
               (updateJob s.jobs job.id fun j => { j with status := .processing })
               job.id fun j =>
                 { j with status := .completed, result := some result
                          processedAt := some env.now },
             rateLimits := incrementRateLimit
               (rlCreateIfAbsent s.rateLimits (hourOf env.now)) (hourOf env.now) },
           .completedJob job.id, [(job.jobUrl, env.now)]))
    ∨ (∃ job msg, newestQueued s.jobs = some job
        ∧ env.enrich job.jobUrl = .error msg
        ∧ processNextJob env s =
          ({ jobs := updateJob
               (updateJob s.jobs job.id fun j => { j with status := .processing })
               job.id fun j =>
                 { j with status := .failed, error := some msg
                          processedAt := some env.now },
             rateLimits := rlCreateIfAbsent s.rateLimits (hourOf env.now) },
           .failedJob job.id, [])) := by
  by_cases h1 : (isMaintenanceMode env.maintenanceRead
      || isUpworkStopped env.stoppedRead) = true
  · exact .inl ⟨.gated, by simp [processNextJob, h1], .inl rfl⟩
  by_cases h2 : (!isWithinWorkingHours env.workingHoursRead env.currentDay
      env.currentTime) = true
  · exact .inl ⟨.offHours, by simp [processNextJob, h1, h2], .inr (.inl rfl)⟩
  simp only [Bool.not_eq_true] at h1 h2
  cases hru : rateLimitUpsert env.rateStoreUp env.maxPerHour s.rateLimits (hourOf env.now)
    with
  | error e =>
    exact .inl ⟨.storeError, by simp [processNextJob, h1, h2, hru], .inr (.inr rfl)⟩
  | ok pair =>
    obtain ⟨can, rl'⟩ := pair
    have hrl : rl' = rlCreateIfAbsent s.rateLimits (hourOf env.now) := by
      unfold rateLimitUpsert at hru
      split at hru
      · simpa [checkRateLimit] using (congrArg Prod.snd (Except.ok.inj hru)).symm
      · exact absurd hru (by simp)
    subst hrl
    by_cases h3 : (!can) = true
    · exact .inr (.inl (by simp [processNextJob, h1, h2, hru, h3]))
    simp only [Bool.not_eq_true] at h3
    cases hq : newestQueued s.jobs with
    | none => exact .inr (.inr (.inl (by simp [processNextJob, h1, h2, hru, h3, hq])))
    | some job =>
      cases he : env.enrich job.jobUrl with
      | ok result =>
        refine .inr (.inr (.inr (.inl ⟨job, result, rfl, he, ?_⟩)))
        simp [processNextJob, h1, h2, hru, h3, hq, he]
      | error msg =>
        refine .inr (.inr (.inr (.inr ⟨job, msg, rfl, he, ?_⟩)))
        simp [processNextJob, h1, h2, hru, h3, hq, he]

/-! ## Claim theorems -/

/-- C1: `tryReserve` (`checkRateLimit`) answers `true` exactly when the
current hour bucket's count is strictly below the quota and leaves every
bucket count unchanged; once `quota` commits have been charged to an
hour bucket that started at zero, every later reservation attempt in
that hour (even after any further commits) is refused, while buckets of
other hour keys are untouched by those commits. -/
theorem checkRateLimit_spec (maxPerHour : Nat) (rl : RateLimits) (hour : Nat) :
    ((checkRateLimit maxPerHour rl hour).1 = true ↔ getCount rl hour < maxPerHour)
    ∧ (∀ h', getCount (checkRateLimit maxPerHour rl hour).2 h' = getCount rl h')
    ∧ (getCount rl hour = 0 →
        ∀ m, (checkRateLimit maxPerHour (commitN (maxPerHour + m) rl hour) hour).1
          = false)
    ∧ (∀ h', h' ≠ hour → ∀ n, getCount (commitN n rl hour) h' = getCount rl h') := by
  refine ⟨?_, ?_, ?_, ?_⟩
  · simp [checkRateLimit, getCount_rlCreateIfAbsent]
  · intro h'
    simp [checkRateLimit, getCount_rlCreateIfAbsent]
  · intro h0 m
    simp [checkRateLimit, getCount_rlCreateIfAbsent, getCount_commitN, h0]
  · intro h' hne n
    simp [getCount_commitN, hne]

/-- Witness for C1 at quota 2: a fresh bucket reserves, and after two
commits the third reservation in the same hour is refused while another
hour's bucket is untouched. -/
theorem checkRateLimit_spec_witness :
    ((checkRateLimit 2 [] 0).1 = true ↔ getCount [] 0 < 2)
    ∧ (∀ h', getCount (checkRateLimit 2 [] 0).2 h' = getCount [] h')
    ∧ (getCount [] 0 = 0 →
        ∀ m, (checkRateLimit 2 (commitN (2 + m) [] 0) 0).1 = false)
    ∧ (∀ h', h' ≠ 0 → ∀ n, getCount (commitN n [] 0) h' = getCount [] h') :=
  checkRateLimit_spec 2 [] 0

theorem recoverStuckJobs_no_processing (jobs : List Job) :
    ∀ j ∈ recoverStuckJobs jobs, j.status ≠ .processing := by
  intro j hj
  simp only [recoverStuckJobs, List.mem_map] at hj
  obtain ⟨x, -, rfl⟩ := hj
  by_cases h : x.status = .processing <;> simp [h]

theorem recoverStuckJobs_forall₂ (jobs : List Job) :
    List.Forall₂ (fun a b =>
      (a.status = .processing ∧ b = { a with status := .queued })
      ∨ (a.status ≠ .processing ∧ b = a)) jobs (recoverStuckJobs jobs) := by
  rw [recoverStuckJobs, List.forall₂_map_right_iff, List.forall₂_same]
  intro x _
  by_cases h : x.status = .processing <;> simp [h]

theorem recoverStuckJobs_idem (jobs : List Job) :
    recoverStuckJobs (recoverStuckJobs jobs) = recoverStuckJobs jobs := by
  induction jobs with
  | nil => rfl
  | cons j rest ih =>
    simp only [recoverStuckJobs, List.map_cons, List.map_map] at ih ⊢
    by_cases h : j.status = .processing <;> simp_all [Function.comp]

theorem forwardOk_refl (a : JobStatus) : forwardOk a a = true := by
  cases a <;> rfl

theorem updateJob_twice (jobs : List Job) (i : Nat) (f g : Job → Job)
    (hf : ∀ j, (f j).id = j.id) :
    updateJob (updateJob jobs i f) i g =
      jobs.map fun j => if j.id = i then g (f j) else j := by
  simp only [updateJob, List.map_map]
  refine List.map_congr_left fun a _ => ?_
  by_cases h : a.id = i
  · simp [Function.comp, h, hf]
  · simp [Function.comp, h]

/-- C5: crash recovery requeues exactly the `processing` items — after
one run no `processing` item remains and every other item is untouched —
and a second run straight after the first changes nothing. -/
theorem recoverStuckJobs_spec (jobs : List Job) :
    (∀ j ∈ recoverStuckJobs jobs, j.status ≠ .processing)
    ∧ List.Forall₂ (fun a b =>
        (a.status = .processing ∧ b = { a with status := .queued })
        ∨ (a.status ≠ .processing ∧ b = a)) jobs (recoverStuckJobs jobs)
    ∧ recoverStuckJobs (recoverStuckJobs jobs) = recoverStuckJobs jobs :=
  ⟨recoverStuckJobs_no_processing jobs, recoverStuckJobs_forall₂ jobs,
    recoverStuckJobs_idem jobs⟩

/-- Witness for C5 on a two-item store holding one `processing` and one
`completed` item. -/
theorem recoverStuckJobs_spec_witness :
    (∀ j ∈ recoverStuckJobs
        [{ id := 1, userId := "u", jobUrl := "a", jobId := none,
           status := .processing, result := none, error := none,
           createdAt := 0, processedAt := none, volnaData := none,
           sourceFilterId := none },
         { id := 2, userId := "u", jobUrl := "b", jobId := none,
           status := .completed, result := none, error := none,
           createdAt := 1, processedAt := none, volnaData := none,
           sourceFilterId := none }], j.status ≠ .processing)
    ∧ List.Forall₂ (fun a b =>
        (a.status = .processing ∧ b = { a with status := .queued })
        ∨ (a.status ≠ .processing ∧ b = a))
        [{ id := 1, userId := "u", jobUrl := "a", jobId := none,
           status := .processing, result := none, error := none,
           createdAt := 0, processedAt := none, volnaData := none,
           sourceFilterId := none },
         { id := 2, userId := "u", jobUrl := "b", jobId := none,
           status := .completed, result := none, error := none,
           createdAt := 1, processedAt := none, volnaData := none,
           sourceFilterId := none }]
        (recoverStuckJobs
          [{ id := 1, userId := "u", jobUrl := "a", jobId := none,
             status := .processing, result := none, error := none,
             createdAt := 0, processedAt := none, volnaData := none,
             sourceFilterId := none },
           { id := 2, userId := "u", jobUrl := "b", jobId := none,
             status := .completed, result := none, error := none,
             createdAt := 1, processedAt := none, volnaData := none,
             sourceFilterId := none }])
    ∧ recoverStuckJobs (recoverStuckJobs
        [{ id := 1, userId := "u", jobUrl := "a", jobId := none,
           status := .processing, result := none, error := none,
           createdAt := 0, processedAt := none, volnaData := none,
           sourceFilterId := none },
         { id := 2, userId := "u", jobUrl := "b", jobId := none,
           status := .completed, result := none, error := none,
           createdAt := 1, processedAt := none, volnaData := none,
           sourceFilterId := none }]) =
      recoverStuckJobs
        [{ id := 1, userId := "u", jobUrl := "a", jobId := none,
           status := .processing, result := none, error := none,
           createdAt := 0, processedAt := none, volnaData := none,
           sourceFilterId := none },
         { id := 2, userId := "u", jobUrl := "b", jobId := none,
           status := .completed, result := none, error := none,
           createdAt := 1, processedAt := none, volnaData := none,
           sourceFilterId := none }] :=
  recoverStuckJobs_spec _

/-- C2: in a cycle that selected a queued item, the rate-limiter commit
happens exactly once when enrichment succeeds and the item ends
`completed` (the hour bucket grows by exactly one, others are
untouched), and never when enrichment fails and the item ends `failed`
(every bucket count is unchanged). -/
theorem rateCommit_on_success (env : CycleEnv) (s : SchedState) :
    (∀ i, (processNextJob env s).2.1 = .completedJob i →
      (∀ h', getCount (processNextJob env s).1.rateLimits h' =
          getCount s.rateLimits h' + (if h' = hourOf env.now then 1 else 0))
      ∧ ∀ j ∈ (processNextJob env s).1.jobs, j.id = i → j.status = .completed)
    ∧ (∀ i, (processNextJob env s).2.1 = .failedJob i →
      (∀ h', getCount (processNextJob env s).1.rateLimits h' =
          getCount s.rateLimits h')
      ∧ ∀ j ∈ (processNextJob env s).1.jobs, j.id = i → j.status = .failed) := by
  rcases processNextJob_cases env s with ⟨out, hP, hout⟩ | hP | hP |
    ⟨job, result, hq, he, hP⟩ | ⟨job, msg, hq, he, hP⟩
  · refine ⟨?_, ?_⟩ <;> intro i h <;> rw [hP] at h <;>
      rcases hout with rfl | rfl | rfl <;> simp at h
  · refine ⟨?_, ?_⟩ <;> intro i h <;> rw [hP] at h <;> simp at h
  · refine ⟨?_, ?_⟩ <;> intro i h <;> rw [hP] at h <;> simp at h
  · refine ⟨?_, ?_⟩ <;> intro i h <;> rw [hP] at h ⊢ <;> simp only at h
    · obtain rfl : job.id = i := by simpa using h
      refine ⟨?_, ?_⟩
      · intro h'
        simp [getCount_incrementRateLimit, getCount_rlCreateIfAbsent]
      · intro j hj hid
        rw [updateJob_twice s.jobs job.id
          (fun j => { j with status := JobStatus.processing }) _ fun j => rfl] at hj
        simp only [List.mem_map] at hj
        obtain ⟨x, hx, rfl⟩ := hj
        by_cases hxi : x.id = job.id
        · simp [hxi]
        · rw [if_neg hxi] at hid
          exact absurd hid hxi
    · simp at h
  · refine ⟨?_, ?_⟩ <;> intro i h <;> rw [hP] at h ⊢ <;> simp only at h
    · simp at h
    · obtain rfl : job.id = i := by simpa using h
      refine ⟨?_, ?_⟩
      · intro h'
        simp [getCount_rlCreateIfAbsent]
      · intro j hj hid
        rw [updateJob_twice s.jobs job.id
          (fun j => { j with status := JobStatus.processing }) _ fun j => rfl] at hj
        simp only [List.mem_map] at hj
        obtain ⟨x, hx, rfl⟩ := hj
        by_cases hxi : x.id = job.id
        · simp [hxi]
        · rw [if_neg hxi] at hid
          exact absurd hid hxi

/-- Witness for C2: on a one-item store with the fixture inputs, the
successful cycle raises the current hour's bucket from 0 to 1 and
completes the item, and the failing cycle leaves all buckets at 0 and
fails the item. -/
theorem rateCommit_on_success_witness :
    ((∀ h', getCount (processNextJob wEnvOk wState).1.rateLimits h' =
        getCount wState.rateLimits h' + (if h' = hourOf wEnvOk.now then 1 else 0))
      ∧ ∀ j ∈ (processNextJob wEnvOk wState).1.jobs, j.id = 1 →
          j.status = .completed)
    ∧ ((∀ h', getCount (processNextJob wEnvFail wState).1.rateLimits h' =
        getCount wState.rateLimits h')
      ∧ ∀ j ∈ (processNextJob wEnvFail wState).1.jobs, j.id = 1 →
          j.status = .failed) :=
  ⟨(rateCommit_on_success wEnvOk wState).1 1 (by decide),
   (rateCommit_on_success wEnvFail wState).2 1 (by decide)⟩

/-- C8: with every gate open, a cycle in which the durable store cannot
serve the rate-limit bucket upsert performs no enrichment call and no
state change at all — the limiter fails closed instead of letting the
external call through. -/
theorem rateLimiter_fails_closed (env : CycleEnv) (s : SchedState)
    (hm : isMaintenanceMode env.maintenanceRead = false)
    (hs : isUpworkStopped env.stoppedRead = false)
    (hw : isWithinWorkingHours env.workingHoursRead env.currentDay
      env.currentTime = true)
    (hdown : env.rateStoreUp = false) :
    processNextJob env s = (s, .storeError, [])
    ∧ ∀ i, (processNextJob env s).2.1 ≠ .completedJob i
        ∧ (processNextJob env s).2.1 ≠ .failedJob i := by
  have key : processNextJob env s = (s, .storeError, []) := by
    simp [processNextJob, hm, hs, hw, rateLimitUpsert, hdown]
  exact ⟨key, fun i => by rw [key]; exact ⟨by simp, by simp⟩⟩

/-- Witness for C8 on the fixture store with the rate-limit store down. -/
theorem rateLimiter_fails_closed_witness :
    processNextJob wEnvDown wState = (wState, .storeError, [])
    ∧ ∀ i, (processNextJob wEnvDown wState).2.1 ≠ .completedJob i
        ∧ (processNextJob wEnvDown wState).2.1 ≠ .failedJob i :=
  rateLimiter_fails_closed wEnvDown wState (by decide) (by decide) (by decide)
    (by decide)

/-- C10: the three gating checks fail open — when their settings reads
throw, `isMaintenanceMode` and `isUpworkStopped` answer `false` and
`isWithinWorkingHours` answers `true` — so a cycle whose settings reads
all throw is never stopped by the maintenance, stop-flag or
working-hours gates. -/
theorem gates_fail_open (e₁ e₂ e₃ : String) (d t : Nat) (env : CycleEnv)
    (s : SchedState)
    (h₁ : env.maintenanceRead = .error e₁) (h₂ : env.stoppedRead = .error e₂)
    (h₃ : env.workingHoursRead = .error e₃) :
    isMaintenanceMode (Except.error e₁) = false
    ∧ isUpworkStopped (Except.error e₂) = false
    ∧ isWithinWorkingHours (Except.error e₃) d t = true
    ∧ (processNextJob env s).2.1 ≠ .gated
    ∧ (processNextJob env s).2.1 ≠ .offHours := by
  have hg : (isMaintenanceMode env.maintenanceRead
      || isUpworkStopped env.stoppedRead) = false := by
    rw [h₁, h₂]; rfl
  have hw : isWithinWorkingHours env.workingHoursRead env.currentDay
      env.currentTime = true := by
    rw [h₃]; rfl
  refine ⟨rfl, rfl, rfl, ?_, ?_⟩ <;>
  · cases hru : rateLimitUpsert env.rateStoreUp env.maxPerHour s.rateLimits
      (hourOf env.now) with
    | error e => simp [processNextJob, hg, hw, hru]
    | ok pair =>
      obtain ⟨can, rl'⟩ := pair
      by_cases h3 : (!can) = true
      · simp [processNextJob, hg, hw, hru, h3]
      · simp only [Bool.not_eq_true] at h3
        cases hq : newestQueued s.jobs with
        | none => simp [processNextJob, hg, hw, hru, h3, hq]
        | some job =>
          cases he : env.enrich job.jobUrl with
          | ok r => simp [processNextJob, hg, hw, hru, h3, hq, he]
          | error m => simp [processNextJob, hg, hw, hru, h3, hq, he]

/-- Witness for C10 on the fixture store with all three settings reads
throwing. -/
theorem gates_fail_open_witness :
    isMaintenanceMode (Except.error "db down") = false
    ∧ isUpworkStopped (Except.error "db down") = false
    ∧ isWithinWorkingHours (Except.error "db down") 3 600 = true
    ∧ (processNextJob wEnvErr wState).2.1 ≠ .gated
    ∧ (processNextJob wEnvErr wState).2.1 ≠ .offHours :=
  gates_fail_open "db down" "db down" "db down" 3 600 wEnvErr wState rfl rfl rfl

theorem mem_jobCreate {jobs jobs2 : List Job} {rec : Job}
    (h : jobCreate jobs rec = .ok jobs2) : ∀ j ∈ jobs2, j ∈ jobs ∨ j = rec := by
  unfold jobCreate at h
  split at h
  · simp at h
  · obtain rfl := Except.ok.inj h
    intro j hj
    rcases List.mem_append.mp hj with h | h
    · exact .inl h
    · exact .inr (List.mem_singleton.mp h)

/-- C6: statuses range over the four lifecycle values, one loop cycle
only moves each item forward along
`queued → processing → (completed | failed)` (position by position, ids
preserved), crash recovery performs only the `processing → queued`
repair, item creation always writes `queued`, and the dispatch
components never touch the status column. -/
theorem status_transition_discipline (env : CycleEnv) (s : SchedState)
    (huniq : List.Pairwise (fun a b => a.id ≠ b.id) s.jobs) :
    List.Forall₂ (fun a b => a.id = b.id ∧ forwardOk a.status b.status = true)
      s.jobs (processNextJob env s).1.jobs
    ∧ (∀ jobs : List Job, List.Forall₂ (fun a b =>
        (a.status = .processing ∧ b = { a with status := .queued }) ∨ b = a)
        jobs (recoverStuckJobs jobs))
    ∧ (∀ st : JobStatus,
        st = .queued ∨ st = .processing ∨ st = .completed ∨ st = .failed)
    ∧ (∀ jobs newId userId jobUrl vd fid t,
        ∀ j ∈ (addJobToQueue jobs newId userId jobUrl vd fid t).1,
          j ∈ jobs ∨ j.status = .queued)
    ∧ (∀ jobs newId userId jobUrl tok t,
        ∀ j ∈ (submitJob jobs newId userId jobUrl tok t).1,
          j ∈ jobs ∨ j.status = .queued)
    ∧ (∀ delayRead jobs jobId t,
        (scheduleLeadhackSend delayRead jobs jobId t).map Job.status =
          jobs.map Job.status)
    ∧ (∀ jobs i ok now err,
        (markLeadhackResult jobs i ok now err).map Job.status =
          jobs.map Job.status) := by
  refine ⟨?_, ?_, ?_, ?_, ?_, ?_, ?_⟩
  · rcases processNextJob_cases env s with ⟨out, hP, -⟩ | hP | hP |
      ⟨job, result, hq, he, hP⟩ | ⟨job, msg, hq, he, hP⟩
    · rw [hP]
      exact List.forall₂_same.mpr fun x _ => ⟨rfl, forwardOk_refl x.status⟩
    · rw [hP]
      exact List.forall₂_same.mpr fun x _ => ⟨rfl, forwardOk_refl x.status⟩
    · rw [hP]
      exact List.forall₂_same.mpr fun x _ => ⟨rfl, forwardOk_refl x.status⟩
    · rw [hP]
      simp only
      rw [updateJob_twice s.jobs job.id
        (fun j => { j with status := JobStatus.processing }) _ fun j => rfl]
      rw [List.forall₂_map_right_iff]
      refine List.forall₂_same.mpr fun x hx => ?_
      by_cases hxi : x.id = job.id
      · have hjm := newestQueued_mem hq
        have hxj : x = job := pairwise_id_unique huniq x hx job hjm.1 hxi
        rw [if_pos hxi]
        exact ⟨rfl, by rw [hxj, hjm.2]; rfl⟩
      · rw [if_neg hxi]
        exact ⟨rfl, forwardOk_refl x.status⟩
    · rw [hP]
      simp only
      rw [updateJob_twice s.jobs job.id
        (fun j => { j with status := JobStatus.processing }) _ fun j => rfl]
      rw [List.forall₂_map_right_iff]
      refine List.forall₂_same.mpr fun x hx => ?_
      by_cases hxi : x.id = job.id
      · have hjm := newestQueued_mem hq
        have hxj : x = job := pairwise_id_unique huniq x hx job hjm.1 hxi
        rw [if_pos hxi]
        exact ⟨rfl, by rw [hxj, hjm.2]; rfl⟩
      · rw [if_neg hxi]
        exact ⟨rfl, forwardOk_refl x.status⟩
  · intro jobs
    exact (recoverStuckJobs_forall₂ jobs).imp fun a b h => h.imp id And.right
  · intro st
    cases st
    · exact .inl rfl
    · exact .inr (.inl rfl)
    · exact .inr (.inr (.inl rfl))
    · exact .inr (.inr (.inr rfl))
  · intro jobs newId userId jobUrl vd fid t j hj
    unfold addJobToQueue at hj
    split at hj
    · exact .inl hj
    · split at hj
      next jobs2 heq =>
        rcases mem_jobCreate heq j hj with h | h
        · exact .inl h
        · right
          rw [h]
      next heq => exact .inl hj
  · intro jobs newId userId jobUrl tok t j hj
    unfold submitJob at hj
    split at hj
    · exact .inl hj
    split at hj
    · exact .inl hj
    split at hj
    next jobs2 heq =>
      rcases mem_jobCreate heq j hj with h | h
      · exact .inl h
      · right
        rw [h]
    next heq => exact .inl hj
  · intro delayRead jobs jobId t
    simp only [scheduleLeadhackSend, updateJob, List.map_map]
    refine List.map_congr_left fun a _ => ?_
    by_cases h : a.id = jobId <;> simp [Function.comp, h]
  · intro jobs i ok now err
    simp only [markLeadhackResult, updateJob, List.map_map]
    refine List.map_congr_left fun a _ => ?_
    by_cases h : a.id = i <;> cases ok <;> simp [Function.comp, h]

/-- Witness for C6 on the one-item fixture store (distinct ids hold
trivially). -/
theorem status_transition_discipline_witness :
    List.Forall₂ (fun a b => a.id = b.id ∧ forwardOk a.status b.status = true)
      wState.jobs (processNextJob wEnvOk wState).1.jobs
    ∧ (∀ jobs : List Job, List.Forall₂ (fun a b =>
        (a.status = .processing ∧ b = { a with status := .queued }) ∨ b = a)
        jobs (recoverStuckJobs jobs))
    ∧ (∀ st : JobStatus,
        st = .queued ∨ st = .processing ∨ st = .completed ∨ st = .failed)
    ∧ (∀ jobs newId userId jobUrl vd fid t,
        ∀ j ∈ (addJobToQueue jobs newId userId jobUrl vd fid t).1,
          j ∈ jobs ∨ j.status = .queued)
    ∧ (∀ jobs newId userId jobUrl tok t,
        ∀ j ∈ (submitJob jobs newId userId jobUrl tok t).1,
          j ∈ jobs ∨ j.status = .queued)
    ∧ (∀ delayRead jobs jobId t,
        (scheduleLeadhackSend delayRead jobs jobId t).map Job.status =
          jobs.map Job.status)
    ∧ (∀ jobs i ok now err,
        (markLeadhackResult jobs i ok now err).map Job.status =
          jobs.map Job.status) :=
  status_transition_discipline wEnvOk wState (by simp [wState])

theorem mem_insertByKey {key : Job → Nat} {j x : Job} {l : List Job} :
    x ∈ insertByKey key j l ↔ x = j ∨ x ∈ l := by
  induction l with
  | nil => simp [insertByKey]
  | cons a t ih =>
    by_cases h : key j ≤ key a
    · simp [insertByKey, h]
    · simp only [insertByKey, if_neg h, List.mem_cons, ih]
      tauto

theorem length_insertByKey (key : Job → Nat) (j : Job) (l : List Job) :
    (insertByKey key j l).length = l.length + 1 := by
  induction l with
  | nil => rfl
  | cons a t ih =>
    by_cases h : key j ≤ key a
    · simp [insertByKey, h]
    · simp [insertByKey, h, ih]

theorem mem_sortByKey {key : Job → Nat} {x : Job} {l : List Job} :
    x ∈ sortByKey key l ↔ x ∈ l := by
  induction l with
  | nil => simp [sortByKey]
  | cons a t ih => simp [sortByKey, mem_insertByKey, ih]

theorem length_sortByKey (key : Job → Nat) (l : List Job) :
    (sortByKey key l).length = l.length := by
  induction l with
  | nil => rfl
  | cons a t ih => simp [sortByKey, length_insertByKey, ih]

/-- C3 (amended): `scheduleLeadhackSend`, run for a completed item
processed at `T`, stamps the item once with dispatch-due time
`T + delay`, the delay being read fresh from settings on that call; a
forwarder run strictly before the due time never selects the item, and
a run at or after it does whenever the ready set fits the batch bound
of 10.  (The primary loop itself never invokes this scheduling — see
the counterexample.) -/
theorem dispatch_due_and_selection
    (delayRead : Except String (Option ℚ)) (jobs : List Job) (jobId T : Nat)
    (j₀ : Job) (hmem : j₀ ∈ jobs) (hid : j₀.id = jobId)
    (hst : j₀.status = .completed)
    (huniq : List.Pairwise (fun a b => a.id ≠ b.id) jobs) :
    ({ j₀ with
        leadhackStatus := some .pending
        leadhackSendAt := some (T + msOfHours (loadDelaySetting delayRead)) }
      ∈ scheduleLeadhackSend delayRead jobs jobId T)
    ∧ (∀ now, now < T + msOfHours (loadDelaySetting delayRead) →
        ∀ j ∈ selectLeadhackBatch now (scheduleLeadhackSend delayRead jobs jobId T),
          j.id ≠ jobId)
    ∧ (∀ now, T + msOfHours (loadDelaySetting delayRead) ≤ now →
        ((scheduleLeadhackSend delayRead jobs jobId T).filter
          (leadhackReady now)).length ≤ 10 →
        ∃ j ∈ selectLeadhackBatch now (scheduleLeadhackSend delayRead jobs jobId T),
          j.id = jobId) := by
  have hsched : { j₀ with
      leadhackStatus := some LeadhackStatus.pending
      leadhackSendAt := some (T + msOfHours (loadDelaySetting delayRead)) }
      ∈ scheduleLeadhackSend delayRead jobs jobId T := by
    have := List.mem_map_of_mem
      (fun j => if j.id = jobId then
        { j with
          leadhackStatus := some LeadhackStatus.pending
          leadhackSendAt := some (T + msOfHours (loadDelaySetting delayRead)) }
        else j) hmem
    simpa [scheduleLeadhackSend, updateJob, hid] using this
  refine ⟨hsched, ?_, ?_⟩
  · intro now hnow j hj hjid
    have h1 : j ∈ sortByKey (fun j => j.leadhackSendAt.getD 0)
        ((scheduleLeadhackSend delayRead jobs jobId T).filter (leadhackReady now)) :=
      List.mem_of_mem_take (by simpa [selectLeadhackBatch] using hj)
    have hj' := mem_sortByKey.mp h1
    rw [List.mem_filter] at hj'
    obtain ⟨hjmem, hready⟩ := hj'
    simp only [scheduleLeadhackSend, updateJob, List.mem_map] at hjmem
    obtain ⟨x, hx, rfl⟩ := hjmem
    by_cases hxi : x.id = jobId
    · have hxj : x = j₀ := pairwise_id_unique huniq x hx j₀ hmem (hxi.trans hid.symm)
      subst hxj
      rw [if_pos hxi] at hready
      simp only [leadhackReady, Bool.and_eq_true, decide_eq_true_eq] at hready
      exact absurd hready.1.2 (by omega)
    · rw [if_neg hxi] at hjid
      exact hxi hjid
  · intro now hnow hlen
    refine ⟨{ j₀ with
        leadhackStatus := some .pending
        leadhackSendAt := some (T + msOfHours (loadDelaySetting delayRead)) }, ?_, hid⟩
    have hmem' : { j₀ with
        leadhackStatus := some LeadhackStatus.pending
        leadhackSendAt := some (T + msOfHours (loadDelaySetting delayRead)) }
        ∈ (scheduleLeadhackSend delayRead jobs jobId T).filter (leadhackReady now) := by
      rw [List.mem_filter]
      exact ⟨hsched, by simp [leadhackReady, hst, hnow]⟩
    rw [selectLeadhackBatch, List.take_of_length_le]
    · exact mem_sortByKey.mpr hmem'
    · rw [length_sortByKey]
      exact hlen

/-- Witness for C3's amended statement: a single completed item
scheduled at `T = 5000`; before the due time the batch is empty of it,
at the due time it is selected. -/
theorem dispatch_due_and_selection_witness :
    ({ wJobDone with
        leadhackStatus := some .pending
        leadhackSendAt := some (5000 + msOfHours (loadDelaySetting (.ok (some 2)))) }
      ∈ scheduleLeadhackSend (.ok (some 2)) [wJobDone] 1 5000)
    ∧ (∀ now, now < 5000 + msOfHours (loadDelaySetting (.ok (some 2))) →
        ∀ j ∈ selectLeadhackBatch now (scheduleLeadhackSend (.ok (some 2)) [wJobDone] 1 5000),
          j.id ≠ 1)
    ∧ (∀ now, 5000 + msOfHours (loadDelaySetting (.ok (some 2))) ≤ now →
        ((scheduleLeadhackSend (.ok (some 2)) [wJobDone] 1 5000).filter
          (leadhackReady now)).length ≤ 10 →
        ∃ j ∈ selectLeadhackBatch now (scheduleLeadhackSend (.ok (some 2)) [wJobDone] 1 5000),
          j.id = 1) :=
  dispatch_due_and_selection (.ok (some 2)) [wJobDone] 1 5000 wJobDone
    (by decide) (by decide) (by decide) (by decide)

/-- Counterexample for C3 as stated: a cycle of the primary loop that
completes an item at `T = 5000` leaves its dispatch-due time and
dispatch status unset (`none`, not `T + delay`) and instead issues the
downstream send immediately at `T` — `scheduleLeadhackSend` is never
invoked from the loop. -/
theorem dispatch_due_counterexample :
    ((processNextJob wEnvOk wState).1.jobs.map fun j =>
        (j.status, j.processedAt, j.leadhackStatus, j.leadhackSendAt)) =
      [(.completed, some 5000, none, none)]
    ∧ (processNextJob wEnvOk wState).2.2 = [(wJob.jobUrl, 5000)] := by
  exact ⟨by decide, by decide⟩

theorem urlsDistinct_jobCreate {jobs jobs2 : List Job} {rec : Job}
    (h : jobCreate jobs rec = .ok jobs2) (hd : urlsDistinct jobs) :
    urlsDistinct jobs2 := by
  unfold jobCreate at h
  split at h
  · simp at h
  next hany =>
    obtain rfl := Except.ok.inj h
    rw [urlsDistinct, List.pairwise_append]
    refine ⟨hd, List.pairwise_singleton _ _, ?_⟩
    intro a ha b hb
    rw [List.mem_singleton.mp hb]
    intro he
    exact hany (List.any_eq_true.mpr ⟨a, ha, by simp [he]⟩)

theorem urlsDistinct_applySubmitOp {jobs : List Job} (op : SubmitOp)
    (hd : urlsDistinct jobs) : urlsDistinct (applySubmitOp jobs op) := by
  cases op with
  | ingest newId userId jobUrl vd fid t =>
    simp only [applySubmitOp, addJobToQueue]
    split
    · exact hd
    · split
      next jobs2 heq => exact urlsDistinct_jobCreate heq hd
      next heq => exact hd
  | manual newId userId jobUrl tok t =>
    simp only [applySubmitOp, submitJob]
    split
    · exact hd
    split
    · exact hd
    split
    next jobs2 heq => exact urlsDistinct_jobCreate heq hd
    next heq => exact hd

theorem pairwise_filter_url_le_one {l : List Job} (h : urlsDistinct l)
    (u : String) : (l.filter fun j => j.jobUrl = u).length ≤ 1 := by
  induction l with
  | nil => simp
  | cons a t ih =>
    rcases List.pairwise_cons.mp h with ⟨ha, ht⟩
    by_cases hu : a.jobUrl = u
    · rw [List.filter_cons_of_pos (by simp [hu])]
      have hnil : t.filter (fun j => decide (j.jobUrl = u)) = [] := by
        rw [List.filter_eq_nil_iff]
        intro b hb
        simp only [decide_eq_true_eq]
        intro hbu
        exact ha b hb (hu.trans hbu.symm)
      simp [hnil]
    · rw [List.filter_cons_of_neg (by simp [hu])]
      exact ih ht

/-- C4: starting from a store whose canonical URLs are pairwise
distinct, any sequence of ingestion auto-enqueues and manual
submissions keeps them pairwise distinct, so at most one `Job` row ever
carries a given URL — a URL submitted twice, by either path or a mix,
never yields two rows. -/
theorem url_dedup_invariant (ops : List SubmitOp) (jobs : List Job)
    (hd : urlsDistinct jobs) :
    urlsDistinct (ops.foldl applySubmitOp jobs)
    ∧ ∀ u, ((ops.foldl applySubmitOp jobs).filter
        fun j => j.jobUrl = u).length ≤ 1 := by
  have hfold : urlsDistinct (ops.foldl applySubmitOp jobs) := by
    induction ops generalizing jobs with
    | nil => exact hd
    | cons op rest ih =>
      exact ih (applySubmitOp jobs op) (urlsDistinct_applySubmitOp op hd)
  exact ⟨hfold, fun u => pairwise_filter_url_le_one hfold u⟩

/-- Witness for C4: the same URL submitted through ingestion, a second
ingestion, and a manual submission, against an empty store. -/
theorem url_dedup_invariant_witness :
    urlsDistinct
      ([SubmitOp.ingest 1 "u1" "https://www.upwork.com/jobs/~abc" none (some "11") 5,
        SubmitOp.ingest 2 "u1" "https://www.upwork.com/jobs/~abc" none (some "12") 6,
        SubmitOp.manual 3 "u1" "https://www.upwork.com/jobs/~abc" true 7].foldl
        applySubmitOp [])
    ∧ ∀ u, (([SubmitOp.ingest 1 "u1" "https://www.upwork.com/jobs/~abc" none (some "11") 5,
        SubmitOp.ingest 2 "u1" "https://www.upwork.com/jobs/~abc" none (some "12") 6,
        SubmitOp.manual 3 "u1" "https://www.upwork.com/jobs/~abc" true 7].foldl
        applySubmitOp []).filter fun j => j.jobUrl = u).length ≤ 1 :=
  url_dedup_invariant _ [] List.Pairwise.nil

theorem pairwise_key_unique {α β : Type} {key : α → β} {l : List α}
    (h : List.Pairwise (fun a b => key a ≠ key b) l) :
    ∀ x ∈ l, ∀ y ∈ l, key x = key y → x = y := by
  induction l with
  | nil => simp
  | cons a t ih =>
    rcases List.pairwise_cons.mp h with ⟨ha, ht⟩
    intro x hx y hy hxy
    rcases List.mem_cons.mp hx with hxa | hxt
    · rcases List.mem_cons.mp hy with hya | hyt
      · exact hxa.trans hya.symm
      · subst hxa
        exact absurd hxy (ha y hyt)
    · rcases List.mem_cons.mp hy with hya | hyt
      · subst hya
        exact absurd hxy.symm (ha x hxt)
      · exact ih ht x hxt y hyt hxy

theorem addFiltered_append (fid : String) (ps : List VolnaProject) :
    ∀ acc, ∃ l', (addFiltered fid ps acc).1 = acc.1 ++ l'
      ∧ ∀ e ∈ l', e.2 = fid := by
  induction ps with
  | nil => exact fun acc => ⟨[], by simp [addFiltered], by simp⟩
  | cons p ps ih =>
    intro acc
    cases hpu : p.url with
    | none => simpa [addFiltered, hpu] using ih acc
    | some v =>
      by_cases hne : v ≠ ""
      · by_cases hc : v ∈ acc.2
        · simpa [addFiltered, hpu, hne, hc] using ih acc
        · obtain ⟨l', hl, ht⟩ := ih (acc.1 ++ [(p, fid)], acc.2 ++ [v])
          refine ⟨(p, fid) :: l', ?_, ?_⟩
          · simp only [addFiltered, hpu, if_pos hne, if_neg hc, hl]
            simp
          · intro e he
            rcases List.mem_cons.mp he with rfl | he
            · rfl
            · exact ht e he
      · simpa [addFiltered, hpu, hne] using ih acc

theorem addFiltered_seen_mono (fid : String) (ps : List VolnaProject) :
    ∀ acc, ∀ u ∈ acc.2, u ∈ (addFiltered fid ps acc).2 := by
  induction ps with
  | nil => simp [addFiltered]
  | cons p ps ih =>
    intro acc u hu
    cases hpu : p.url with
    | none => simpa [addFiltered, hpu] using ih acc u hu
    | some v =>
      by_cases hne : v ≠ ""
      · by_cases hc : v ∈ acc.2
        · simpa [addFiltered, hpu, hne, hc] using ih acc u hu
        · have hu' : u ∈ (acc.1 ++ [(p, fid)], acc.2 ++ [v]).2 := by simp [hu]
          simpa [addFiltered, hpu, hne, hc] using ih _ u hu'
      · simpa [addFiltered, hpu, hne] using ih acc u hu

theorem addFiltered_link (fid : String) (ps : List VolnaProject) :
    ∀ acc, (∀ u, u ∈ acc.2 ↔ ∃ e ∈ acc.1, e.1.url = some u) →
      ∀ u, u ∈ (addFiltered fid ps acc).2 ↔
        ∃ e ∈ (addFiltered fid ps acc).1, e.1.url = some u := by
  induction ps with
  | nil => intro acc h; simpa [addFiltered] using h
  | cons p ps ih =>
    intro acc h
    cases hpu : p.url with
    | none => simpa [addFiltered, hpu] using ih acc h
    | some v =>
      by_cases hne : v ≠ ""
      · by_cases hc : v ∈ acc.2
        · simpa [addFiltered, hpu, hne, hc] using ih acc h
        · have h' : ∀ u, u ∈ (acc.1 ++ [(p, fid)], acc.2 ++ [v]).2 ↔
              ∃ e ∈ (acc.1 ++ [(p, fid)], acc.2 ++ [v]).1, e.1.url = some u := by
            intro u
            simp only [List.mem_append, List.mem_singleton, h u]
            constructor
            · rintro (⟨e, he, heu⟩ | rfl)
              · exact ⟨e, .inl he, heu⟩
              · exact ⟨(p, fid), .inr rfl, hpu⟩
            · rintro ⟨e, he | rfl, heu⟩
              · exact .inl ⟨e, he, heu⟩
              · right
                have : some v = some u := hpu ▸ heu
                exact (Option.some.inj this).symm
          simpa [addFiltered, hpu, hne, hc] using ih _ h'
      · simpa [addFiltered, hpu, hne] using ih acc h

theorem addFiltered_pairwise (fid : String) (ps : List VolnaProject) :
    ∀ acc, (∀ u, u ∈ acc.2 ↔ ∃ e ∈ acc.1, e.1.url = some u) →
      List.Pairwise (fun a b => a.1.url ≠ b.1.url) acc.1 →
      List.Pairwise (fun a b => a.1.url ≠ b.1.url) (addFiltered fid ps acc).1 := by
  induction ps with
  | nil => intro acc _ hpw; simpa [addFiltered] using hpw
  | cons p ps ih =>
    intro acc hlink hpw
    cases hpu : p.url with
    | none => simpa [addFiltered, hpu] using ih acc hlink hpw
    | some v =>
      by_cases hne : v ≠ ""
      · by_cases hc : v ∈ acc.2
        · simpa [addFiltered, hpu, hne, hc] using ih acc hlink hpw
        · have h' : ∀ u, u ∈ (acc.1 ++ [(p, fid)], acc.2 ++ [v]).2 ↔
              ∃ e ∈ (acc.1 ++ [(p, fid)], acc.2 ++ [v]).1, e.1.url = some u := by
            intro u
            simp only [List.mem_append, List.mem_singleton, hlink u]
            constructor
            · rintro (⟨e, he, heu⟩ | rfl)
              · exact ⟨e, .inl he, heu⟩
              · exact ⟨(p, fid), .inr rfl, hpu⟩
            · rintro ⟨e, he | rfl, heu⟩
              · exact .inl ⟨e, he, heu⟩
              · right
                have : some v = some u := hpu ▸ heu
                exact (Option.some.inj this).symm
          have hpw' : List.Pairwise (fun a b => a.1.url ≠ b.1.url)
              (acc.1 ++ [(p, fid)]) := by
            rw [List.pairwise_append]
            refine ⟨hpw, List.pairwise_singleton _ _, ?_⟩
            intro a ha b hb
            rw [List.mem_singleton.mp hb]
            intro he
            exact hc ((hlink v).mpr ⟨a, ha, by rw [he, hpu]⟩)
          simpa [addFiltered, hpu, hne, hc] using ih _ h' hpw'
      · simpa [addFiltered, hpu, hne] using ih acc hlink hpw

theorem addFiltered_covers (fid : String) (ps : List VolnaProject)
    {u : String} (hne : u ≠ "") :
    ∀ acc, (∃ p ∈ ps, p.url = some u) → u ∈ (addFiltered fid ps acc).2 := by
  induction ps with
  | nil => rintro acc ⟨p, hp, -⟩; simp at hp
  | cons p ps ih =>
    rintro acc ⟨q, hq, hqu⟩
    rcases List.mem_cons.mp hq with rfl | hqt
    · by_cases hc : u ∈ acc.2
      · simpa [addFiltered, hqu, hne, hc] using
          addFiltered_seen_mono fid ps acc u hc
      · have hu' : u ∈ (acc.1 ++ [(q, fid)], acc.2 ++ [u]).2 := by simp
        simpa [addFiltered, hqu, hne, hc] using
          addFiltered_seen_mono fid ps _ u hu'
    · cases hpu : p.url with
      | none => simpa [addFiltered, hpu] using ih _ ⟨q, hqt, hqu⟩
      | some v =>
        by_cases hvne : v ≠ ""
        · by_cases hc : v ∈ acc.2
          · simpa [addFiltered, hpu, hvne, hc] using ih _ ⟨q, hqt, hqu⟩
          · simpa [addFiltered, hpu, hvne, hc] using ih _ ⟨q, hqt, hqu⟩
        · simpa [addFiltered, hpu, hvne] using ih _ ⟨q, hqt, hqu⟩

theorem collect_fold_persist (fetch : String → List VolnaProject)
    (fids : List String) :
    ∀ acc, ∃ l', (List.foldl (fun acc fid => addFiltered fid (fetch fid) acc)
      acc fids).1 = acc.1 ++ l' := by
  induction fids with
  | nil => exact fun acc => ⟨[], by simp⟩
  | cons f fids ih =>
    intro acc
    obtain ⟨l₁, h₁, -⟩ := addFiltered_append f (fetch f) acc
    obtain ⟨l₂, h₂⟩ := ih (addFiltered f (fetch f) acc)
    exact ⟨l₁ ++ l₂, by simp [List.foldl_cons, h₂, h₁]⟩

theorem collect_fold_inv (fetch : String → List VolnaProject)
    (fids : List String) :
    ∀ acc, (∀ u, u ∈ acc.2 ↔ ∃ e ∈ acc.1, e.1.url = some u) →
      List.Pairwise (fun a b => a.1.url ≠ b.1.url) acc.1 →
      (∀ u, u ∈ (List.foldl (fun acc fid => addFiltered fid (fetch fid) acc)
          acc fids).2 ↔
        ∃ e ∈ (List.foldl (fun acc fid => addFiltered fid (fetch fid) acc)
          acc fids).1, e.1.url = some u)
      ∧ List.Pairwise (fun a b => a.1.url ≠ b.1.url)
        (List.foldl (fun acc fid => addFiltered fid (fetch fid) acc)
          acc fids).1 := by
  induction fids with
  | nil => exact fun acc hlink hpw => ⟨hlink, hpw⟩
  | cons f fids ih =>
    intro acc hlink hpw
    exact ih (addFiltered f (fetch f) acc)
      (addFiltered_link f (fetch f) acc hlink)
      (addFiltered_pairwise f (fetch f) acc hlink hpw)

/-- C7: one poll cycle's merge is deduplicated by canonical URL (the
merged list never carries two candidates with the same URL); a URL the
first configured source returns is always tagged with that first
source, whatever later sources return; and on the concrete overlapping
scenario `{A,B}` / `{B,C}` against an empty store, auto-add creates
exactly one queued item for each of A, B, C, with B carrying the first
source's id. -/
theorem ingest_merge_dedup (fetch : String → List VolnaProject)
    (f₁ : String) (rest : List String) :
    List.Pairwise (fun a b => a.1.url ≠ b.1.url)
      (collectProjects fetch (f₁ :: rest))
    ∧ (∀ u : String, u ≠ "" → (∃ p ∈ fetch f₁, p.url = some u) →
        (∃ p, (p, f₁) ∈ collectProjects fetch (f₁ :: rest) ∧ p.url = some u)
        ∧ ∀ e ∈ collectProjects fetch (f₁ :: rest), e.1.url = some u → e.2 = f₁)
    ∧ ((autoAddAll [] 10 "u" 7 (collectProjects scenFetch ["1", "2"])).1.map
        fun j => (j.jobUrl, j.sourceFilterId, j.status)) =
        [("A", some "1", .queued), ("B", some "1", .queued),
          ("C", some "2", .queued)] := by
  have base : ∀ u : String,
      u ∈ (([], []) : List (VolnaProject × String) × List String).2 ↔
        ∃ e ∈ (([], []) : List (VolnaProject × String) × List String).1,
          e.1.url = some u := by simp
  have hinv := collect_fold_inv fetch (f₁ :: rest) ([], []) base .nil
  refine ⟨hinv.2, ?_, by decide⟩
  intro u hne hex
  have acc₁ := addFiltered f₁ (fetch f₁) ([], [])
  have hu₁ : u ∈ (addFiltered f₁ (fetch f₁) ([], [])).2 :=
    addFiltered_covers f₁ (fetch f₁) hne ([], []) hex
  have hlink₁ := addFiltered_link f₁ (fetch f₁) ([], []) base
  obtain ⟨e, he, heu⟩ := (hlink₁ u).mp hu₁
  obtain ⟨l', hl', htag⟩ := addFiltered_append f₁ (fetch f₁) ([], [])
  have htagged : e.2 = f₁ := by
    have he' : e ∈ ([] : List (VolnaProject × String)) ++ l' := hl' ▸ he
    exact htag e (by simpa using he')
  obtain ⟨l₂, hl₂⟩ :=
    collect_fold_persist fetch rest (addFiltered f₁ (fetch f₁) ([], []))
  have hefin : e ∈ collectProjects fetch (f₁ :: rest) := by
    rw [collectProjects, List.foldl_cons, hl₂]
    exact List.mem_append.mpr (.inl he)
  refine ⟨⟨e.1, ?_, heu⟩, ?_⟩
  · have : (e.1, f₁) = e := by
      rw [← htagged]
    rw [this]
    exact hefin
  · intro e' he' heu'
    have : e' = e := pairwise_key_unique hinv.2 e' he' e hefin
      (by rw [heu', heu])
    rw [this, htagged]

/-- Witness for C7 at the two scenario sources: the merge is duplicate
free and B is tagged with the first source. -/
theorem ingest_merge_dedup_witness :
    List.Pairwise (fun a b => a.1.url ≠ b.1.url)
      (collectProjects scenFetch ["1", "2"])
    ∧ ((∃ p, (p, "1") ∈ collectProjects scenFetch ["1", "2"]
          ∧ p.url = some "B")
      ∧ ∀ e ∈ collectProjects scenFetch ["1", "2"],
          e.1.url = some "B" → e.2 = "1") :=
  ⟨(ingest_merge_dedup scenFetch "1" ["2"]).1,
   (ingest_merge_dedup scenFetch "1" ["2"]).2.1 "B" (by decide)
     ⟨pB, by decide, by decide⟩⟩

/-- C9: every generated interval lies in `[min, 3·max]`; the value is
the uniform base `⌊r1·(max−min)⌋ + min` unless the long-pause draw
fires (`r2 < 0.15`), in which case it is the base stretched by the
uniform factor `2 + r3 ∈ [2, 3)`; without the long-pause draw the
result never exceeds `max`, with it the result exceeds `max` whenever
`2·base > max`; and the `0.15` threshold captures exactly 15 of 100
evenly spaced draws of `r2`. -/
theorem getRandomInterval_spec (minI maxI : Nat) (r1 r2 r3 : ℚ)
    (h1a : 0 ≤ r1) (h1b : r1 < 1) (h3a : 0 ≤ r3) (h3b : r3 < 1)
    (hmm : minI ≤ maxI) :
    ((minI : ℤ) ≤ getRandomInterval minI maxI r1 r2 r3
      ∧ getRandomInterval minI maxI r1 r2 r3 ≤ 3 * maxI)
    ∧ (r2 < 3 / 20 →
        getRandomInterval minI maxI r1 r2 r3 =
          ⌊((⌊r1 * ((maxI : ℚ) - (minI : ℚ))⌋ + (minI : ℤ) : ℤ) : ℚ) * (2 + r3)⌋)
    ∧ (¬ r2 < 3 / 20 →
        getRandomInterval minI maxI r1 r2 r3 =
          ⌊r1 * ((maxI : ℚ) - (minI : ℚ))⌋ + minI
        ∧ getRandomInterval minI maxI r1 r2 r3 ≤ maxI)
    ∧ (r2 < 3 / 20 →
        (maxI : ℤ) < 2 * (⌊r1 * ((maxI : ℚ) - (minI : ℚ))⌋ + minI) →
        (maxI : ℤ) < getRandomInterval minI maxI r1 r2 r3)
    ∧ (∀ k : Nat, ((k : ℚ) / 100 < 3 / 20 ↔ k < 15)) := by
  have hΔ : (0 : ℚ) ≤ (maxI : ℚ) - minI := by
    have : (minI : ℚ) ≤ maxI := by exact_mod_cast hmm
    linarith
  have hfl0 : (0 : ℤ) ≤ ⌊r1 * ((maxI : ℚ) - (minI : ℚ))⌋ :=
    Int.floor_nonneg.mpr (mul_nonneg h1a hΔ)
  have hflhi : ⌊r1 * ((maxI : ℚ) - (minI : ℚ))⌋ ≤ (maxI : ℤ) - minI := by
    have hle : r1 * ((maxI : ℚ) - minI) ≤ (maxI : ℚ) - minI := by nlinarith
    have h2 := Int.floor_le_floor hle
    have h3 : ⌊(maxI : ℚ) - (minI : ℚ)⌋ = (maxI : ℤ) - minI := by
      rw [show ((maxI : ℚ) - (minI : ℚ)) = (((maxI : ℤ) - minI : ℤ) : ℚ) by
        push_cast; ring]
      exact Int.floor_intCast _
    omega
  have hbase_lo : (minI : ℤ) ≤ ⌊r1 * ((maxI : ℚ) - (minI : ℚ))⌋ + minI := by
    omega
  have hbase_hi : ⌊r1 * ((maxI : ℚ) - (minI : ℚ))⌋ + (minI : ℤ) ≤ maxI := by
    omega
  have hbase0 : (0 : ℤ) ≤ ⌊r1 * ((maxI : ℚ) - (minI : ℚ))⌋ + minI := by
    omega
  have hbase0q : (0 : ℚ) ≤
      ((⌊r1 * ((maxI : ℚ) - (minI : ℚ))⌋ : ℤ) : ℚ) + minI := by
    exact_mod_cast hbase0
  have hsc_lo : 2 * (⌊r1 * ((maxI : ℚ) - (minI : ℚ))⌋ + (minI : ℤ)) ≤
      ⌊((⌊r1 * ((maxI : ℚ) - (minI : ℚ))⌋ + (minI : ℤ) : ℤ) : ℚ) * (2 + r3)⌋ := by
    apply Int.le_floor.mpr
    push_cast
    nlinarith [mul_nonneg hbase0q h3a]
  have hsc_hi : ⌊((⌊r1 * ((maxI : ℚ) - (minI : ℚ))⌋ + (minI : ℤ) : ℤ) : ℚ) * (2 + r3)⌋ ≤
      3 * (⌊r1 * ((maxI : ℚ) - (minI : ℚ))⌋ + (minI : ℤ)) := by
    have hle : ((⌊r1 * ((maxI : ℚ) - (minI : ℚ))⌋ + (minI : ℤ) : ℤ) : ℚ) * (2 + r3) ≤
        ((3 * (⌊r1 * ((maxI : ℚ) - (minI : ℚ))⌋ + (minI : ℤ)) : ℤ) : ℚ) := by
      push_cast
      nlinarith [mul_nonneg hbase0q (show (0 : ℚ) ≤ 1 - r3 by linarith)]
    have := Int.floor_le_floor hle
    rwa [Int.floor_intCast] at this
  refine ⟨?_, ?_, ?_, ?_, ?_⟩
  · simp only [getRandomInterval]
    split
    · constructor
      · refine le_trans hbase_lo (le_trans (by omega) hsc_lo)
      · refine le_trans hsc_hi (by omega)
    · exact ⟨hbase_lo, by omega⟩
  · intro h
    simp only [getRandomInterval]
    rw [if_pos h]
  · intro h
    simp only [getRandomInterval]
    rw [if_neg h]
    exact ⟨rfl, by omega⟩
  · intro h hgt
    simp only [getRandomInterval]
    rw [if_pos h]
    omega
  · intro k
    rw [div_lt_iff₀ (by norm_num : (0 : ℚ) < 100)]
    constructor
    · intro h
      have : (k : ℚ) < 15 := by linarith
      exact_mod_cast this
    · intro h
      have : (k : ℚ) < 15 := by exact_mod_cast h
      linarith

/-- Witness for C9 at `min = 90000`, `max = 180000` and the draws
`r1 = 1/2`, `r2 = 1/10` (long pause fires), `r3 = 1/2`. -/
theorem getRandomInterval_spec_witness :
    (((90000 : Nat) : ℤ) ≤ getRandomInterval 90000 180000 (1/2) (1/10) (1/2)
      ∧ getRandomInterval 90000 180000 (1/2) (1/10) (1/2) ≤ 3 * 180000)
    ∧ ((1 : ℚ)/10 < 3 / 20 →
        getRandomInterval 90000 180000 (1/2) (1/10) (1/2) =
          ⌊((⌊(1/2 : ℚ) * ((180000 : ℚ) - (90000 : ℚ))⌋ + (90000 : ℤ) : ℤ) : ℚ)
            * (2 + 1/2)⌋)
    ∧ (¬ (1 : ℚ)/10 < 3 / 20 →
        getRandomInterval 90000 180000 (1/2) (1/10) (1/2) =
          ⌊(1/2 : ℚ) * ((180000 : ℚ) - (90000 : ℚ))⌋ + 90000
        ∧ getRandomInterval 90000 180000 (1/2) (1/10) (1/2) ≤ 180000)
    ∧ ((1 : ℚ)/10 < 3 / 20 →
        ((180000 : Nat) : ℤ) < 2 * (⌊(1/2 : ℚ) * ((180000 : ℚ) - (90000 : ℚ))⌋ + 90000) →
        ((180000 : Nat) : ℤ) < getRandomInterval 90000 180000 (1/2) (1/10) (1/2))
    ∧ (∀ k : Nat, ((k : ℚ) / 100 < 3 / 20 ↔ k < 15)) :=
  getRandomInterval_spec 90000 180000 (1/2) (1/10) (1/2) (by norm_num)
    (by norm_num) (by norm_num) (by norm_num) (by norm_num)

end Ins
